import Mathlib

/-!
Shallow embedding of the two command-line tools of the sqre-codekit
repository:

* `codekit/cli/github_fork_repos.py` — forks a team-filtered set of
  repositories from a source GitHub organization into a destination
  organization, optionally recreating the teams the selected repositories
  belong to.
* `github_list_repos.py` — lists the repositories of an organization,
  optionally with each repository's team names, optionally hiding one
  team name.

Remote GitHub state (organizations, teams, repositories) is modelled as
plain data; the remote calls that can fail or return data chosen by the
server (`create_fork`, `create_team`, `get_teams`) are modelled by oracle
functions supplied as parameters, so theorems quantify over every
possible server behaviour.
-/

namespace Codekit

/-- A GitHub repository as consumed by the tools: its short name and its
fully qualified `org/name`. -/
structure Repo where
  name : String
  full_name : String
deriving DecidableEq, Repr

/-- A GitHub team: its name and the repositories that are members of it. -/
structure Team where
  name : String
  repos : List Repo
deriving DecidableEq, Repr

/-- A GitHub organization: its login and its teams (`org.get_teams()`). -/
structure Org where
  login : String
  teams : List Team
deriving DecidableEq, Repr

/-- Does the first character list start with the second? -/
def charsStart : List Char → List Char → Bool
  | _, [] => true
  | [], _ :: _ => false
  | a :: hs, b :: ns => a == b && charsStart hs ns

/-- Does the needle (first argument) occur as a contiguous run of the
haystack (second argument)? An empty needle always occurs. -/
def charsInfix (needle : List Char) : List Char → Bool
  | [] => needle.isEmpty
  | c :: rest => charsStart (c :: rest) needle || charsInfix needle rest

/-- Python's substring test for strings: `needle in hay`. -/
def strIn (needle hay : String) : Bool :=
  charsInfix needle.data hay.data

/-- The data of a `github.GithubException`: the top-level message
(`e.data['message']`) and the sub-error messages
(`[oops['message'] for oops in e.data['errors']]`). -/
structure GithubError where
  message : String
  errors : List String
deriving DecidableEq, Repr

/-- An unhandled Python exception terminating a run. -/
inductive RunError where
  /-- a re-raised `github.GithubException` -/
  | github (e : GithubError)
  /-- `StopIteration` from `next()` on an exhausted generator -/
  | stopIteration
  /-- `ValueError` (`max()` on an empty sequence, `list.remove` miss) -/
  | valueError (msg : String)
  /-- `NameError` from referencing an undefined variable -/
  | nameError
deriving DecidableEq, Repr

/-- Result of a run of `main`: `sys.exit(code)` or an uncaught exception. -/
inductive Outcome where
  | exit (code : Nat)
  | raised (e : RunError)
deriving DecidableEq, Repr

/-- Observable remote side effects and stage markers of a run, in the
order they are issued. -/
inductive Event where
  /-- the repository selection is fixed (end of the SELECT stage) -/
  | select (repos : List Repo)
  /-- source team membership is captured (`find_teams_by_repos`) -/
  | captureTeams
  /-- the destination conflict check ran, reporting these names -/
  | checkConflicts (conflicting : List String)
  /-- `dst_org.create_fork(r)` was issued -/
  | forkRequest (r : Repo)
  /-- `org.create_team(name, ...)` was issued; `arg` is the
  `repo_names` keyword argument (`none` when absent) -/
  | createTeamRequest (name : String) (arg : Option (List String))
deriving DecidableEq, Repr

/-- The teams a repository belongs to, as `r.get_teams()` would return
them for a repository of `org`: the organization's teams that have `r`
among their member repositories, in team-listing order. -/
def getTeams (org : Org) (r : Repo) : List Team :=
  org.teams.filter (fun t => t.repos.contains r)

/-- The entry `find_teams_by_repos` records for one repository:
`{'repo': r, 'teams': r.get_teams()}`. -/
structure RepoTeams where
  repo : Repo
  teams : List Team
deriving DecidableEq, Repr

/-- The dictionary `find_teams_by_repos` builds for a non-empty input:
keyed by `r.full_name`, in repository order. -/
def capture (org : Org) (src_repos : List Repo) : List (String × RepoTeams) :=
  src_repos.map (fun r => (r.full_name, ⟨r, getTeams org r⟩))

/-- `find_teams_by_repos(src_repos)` (github_fork_repos.py, lines 76-93).
`max([r.full_name for r in src_repos], key=len)` raises
`ValueError: max() arg is an empty sequence` on an empty repository
list, before the result dictionary is built; otherwise the function
returns the dictionary keyed by full name. -/
def find_teams_by_repos (org : Org) (src_repos : List Repo) :
    Except RunError (List (String × RepoTeams)) :=
  if src_repos.isEmpty then
    .error (.valueError "max() arg is an empty sequence")
  else
    .ok (capture org src_repos)

/-- Append `r` under key `name` in the team-usage index, creating the
key at the end if absent — the body of the inner loop of
`find_used_teams`. -/
def addUsed : List (String × List Repo) → String → Repo →
    List (String × List Repo)
  | [], name, r => [(name, [r])]
  | (n, rs) :: rest, name, r =>
    if n = name then (n, rs ++ [r]) :: rest
    else (n, rs) :: addUsed rest name r

/-- `find_used_teams(src_rt)` (lines 96-109): index of team names used by
the repositories being forked, each mapped to the repositories that are
members of that team, keys in first-encounter order. -/
def find_used_teams (src_rt : List (String × RepoTeams)) :
    List (String × List Repo) :=
  src_rt.foldl
    (fun acc kv =>
      (kv.2.teams.map Team.name).foldl
        (fun a n => addUsed a n kv.2.repo) acc)
    []

/-- The marker GitHub puts in the sub-error message when a team name is
taken. -/
def nameTakenMarker : String := "Name has already been taken"

/-- The `except github.GithubException` handler of `create_teams` raises
at the first sub-error message for which
`not (ignore_existing and 'Name has already been taken' in msg)`; it
falls through to the existing-team lookup exactly when every sub-error
message passes the test — vacuously so when `e.data['errors']` is
empty. -/
def recoverable (ignore_existing : Bool) (e : GithubError) : Bool :=
  e.errors.all (fun msg => ignore_existing && strIn nameTakenMarker msg)

/-- Result of one `org.create_team` call, chosen by the server. -/
inductive CreateTeamResult where
  | ok (t : Team)
  | err (e : GithubError)
deriving Repr

/-- The `repo_names` keyword argument passed to `org.create_team`:
with `with_repos` the fully qualified destination names
`'/'.join([org.login, r.name])` of the team's member repositories,
otherwise absent. -/
def team_create_arg (login : String) (with_repos : Bool)
    (repos : List Repo) : Option (List String) :=
  if with_repos then some (repos.map (fun r => login ++ "/" ++ r.name))
  else none

/-- Python dict insertion `d[k] = v`: overwrite in place if the key
exists, else append. -/
def dictInsert : List (String × Team) → String → Team →
    List (String × Team)
  | [], k, v => [(k, v)]
  | (k', v') :: rest, k, v =>
    if k' = k then (k, v) :: rest
    else (k', v') :: dictInsert rest k v

/-- The loop of `create_teams` (lines 124-153), threading the `dst_teams`
dictionary and recording each `create_team` request as an event.
`login` is `org.login`, `dstL` is what `org.get_teams()` returns for the
existing-team lookup, `api` is the server's response to
`org.create_team(name, repo_names=arg)`. On a creation failure the
handler re-raises unless `recoverable`; when it falls through it runs
`next(t for t in org.get_teams() if t.name in name)` — the first listed
team whose name is a substring of the requested name — raising
`StopIteration` when no team qualifies. -/
def create_teams_loop (login : String) (dstL : List Team)
    (api : String → Option (List String) → CreateTeamResult)
    (with_repos ignore_existing : Bool) :
    List (String × List Repo) → List (String × Team) →
    List Event × Except RunError (List (String × Team))
  | [], acc => ([], .ok acc)
  | (name, repos) :: rest, acc =>
    let arg := team_create_arg login with_repos repos
    match api name arg with
    | .ok t =>
      let next' := create_teams_loop login dstL api with_repos
        ignore_existing rest (dictInsert acc t.name t)
      (.createTeamRequest name arg :: next'.1, next'.2)
    | .err e =>
      if recoverable ignore_existing e then
        match dstL.find? (fun t => strIn t.name name) with
        | some t =>
          let next' := create_teams_loop login dstL api with_repos
            ignore_existing rest (dictInsert acc t.name t)
          (.createTeamRequest name arg :: next'.1, next'.2)
        | none => ([.createTeamRequest name arg], .error .stopIteration)
      else ([.createTeamRequest name arg], .error (.github e))

/-- `create_teams(org, teams, with_repos, ignore_existing)`
(lines 112-155): the returned dictionary of destination teams keyed by
the created (or found) team's name, or the exception that aborted it. -/
def create_teams (login : String) (dstL : List Team)
    (api : String → Option (List String) → CreateTeamResult)
    (with_repos ignore_existing : Bool)
    (teams : List (String × List Repo)) :
    Except RunError (List (String × Team)) :=
  (create_teams_loop login dstL api with_repos ignore_existing teams []).2

/-- The fork object returned by `dst_org.create_fork(r)`: its fully
qualified name and creation timestamp. -/
structure ForkInfo where
  full_name : String
  created_at : Int
deriving DecidableEq, Repr

/-- Result of one `create_fork` call, chosen by the server. -/
inductive ForkResult where
  | ok (f : ForkInfo)
  | err (e : GithubError)
deriving Repr

/-- The loop of `create_forks` (lines 173-188): for the `i`-th repository
it reads `now = datetime.datetime.now()` (modelled by `time i`), issues
the fork request, and warns when the returned fork's `created_at` is
earlier than `now` (the fork already existed); an API error is not
caught and aborts the run. Returns the issued fork events and, on
success, the warnings emitted. -/
def create_forks_loop (api : Repo → ForkResult) (time : Nat → Int) :
    List Repo → Nat → List Event × Except RunError (List String)
  | [], _ => ([], .ok [])
  | r :: rest, i =>
    match api r with
    | .err e => ([.forkRequest r], .error (.github e))
    | .ok fork =>
      let next' := create_forks_loop api time rest (i + 1)
      (.forkRequest r :: next'.1,
        match next'.2 with
        | .error e => .error e
        | .ok ws =>
          .ok (if fork.created_at < time i then
                ("fork of " ++ fork.full_name ++ " already exists") :: ws
              else ws))

/-- `create_forks(dst_org, src_repos)` (lines 158-188), starting the
clock at 0. -/
def create_forks (api : Repo → ForkResult) (time : Nat → Int)
    (src_repos : List Repo) : List Event × Except RunError (List String) :=
  create_forks_loop api time src_repos 0

/-- Deduplication pass keeping the first occurrence of each element:
`seen` holds the elements already emitted. -/
def dedupFirstAux {α : Type} [DecidableEq α] (seen : List α) :
    List α → List α
  | [] => []
  | a :: l =>
    if seen.contains a then dedupFirstAux seen l
    else a :: dedupFirstAux (a :: seen) l

/-- Deduplicate a list keeping the first occurrence of each element, in
order (the semantics of a generator that skips already-seen items). -/
def dedupFirst {α : Type} [DecidableEq α] (l : List α) : List α :=
  dedupFirstAux [] l

/-- Modelled from the spec: `pygithub.get_repos_by_team` lives in
`codekit/pygithub.py`, which is not among the provided source files.
Per the spec it enumerates "the (deduplicated) union of repositories
belonging to the kept teams", preserving enumeration order. -/
def get_repos_by_team (teams : List Team) : List Repo :=
  dedupFirst (teams.map Team.repos).flatten

/-- `itertools.islice(it, limit)` collected into a list:
`islice(it, None)` yields everything, `islice(it, n)` the first `n`
items. -/
def islice {α : Type} (l : List α) : Option Nat → List α
  | none => l
  | some n => l.take n

/-- The command-line arguments of `github-fork-repos` relevant to the
orchestration: the `--team` filters (append action), the optional
`--limit`, and the `--copy-teams` flag. -/
structure Args where
  team : List String
  limit : Option Nat
  copy_teams : Bool
deriving Repr

/-- The remote state and server behaviour one run of `main` interacts
with: the source organization, the destination organization's login and
team listing, and the server's responses to fork and team-creation
requests (`time i` is `datetime.datetime.now()` read before the `i`-th
fork request). -/
structure World where
  src_org : Org
  dst_login : String
  dst_teams : List Team
  fork_api : Repo → ForkResult
  team_api : String → Option (List String) → CreateTeamResult
  time : Nat → Int

/-- The teams kept by the selection filter (line 209):
`[t for t in src_org.get_teams() if t.name in args.team]`. -/
def kept_teams (w : World) (a : Args) : List Team :=
  w.src_org.teams.filter (fun t => a.team.contains t.name)

/-- The selection before `--limit` is applied:
`pygithub.get_repos_by_team(fork_teams)` (line 212). -/
def unlimited_selection (w : World) (a : Args) : List Repo :=
  get_repos_by_team (kept_teams w a)

/-- `src_repos = list(itertools.islice(repos, args.limit))` (line 216). -/
def selected_repos (w : World) (a : Args) : List Repo :=
  islice (unlimited_selection w a) a.limit

/-- The team-usage index `src_teams` computed by `main` when
`--copy-teams` is given (lines 232-236). -/
def source_index (w : World) (a : Args) : List (String × List Repo) :=
  find_used_teams (capture w.src_org (selected_repos w a))

/-- `conflicting_teams` (lines 248-256): the source-index team names
that already exist in the destination organization, in index order. -/
def conflict_list (w : World) (a : Args) : List String :=
  ((source_index w a).map Prod.fst).filter
    (fun n => (w.dst_teams.map Team.name).contains n)

/-- The fork stage and the optional team-creation stage of `main`
(lines 263-267): fork every selected repository; on success, when
`--copy-teams` is given, call `create_teams(dst_org, src_teams)` — with
`with_repos` and `ignore_existing` left at their `False` defaults. -/
def fork_then_teams (w : World) (a : Args) : List Event × Outcome :=
  let forked := create_forks w.fork_api w.time (selected_repos w a)
  match forked.2 with
  | .error e => (forked.1, .raised e)
  | .ok _ =>
    if a.copy_teams then
      let created := create_teams_loop w.dst_login w.dst_teams w.team_api
        false false (source_index w a) []
      match created.2 with
      | .error e => (forked.1 ++ created.1, .raised e)
      | .ok _ => (forked.1 ++ created.1, .exit 0)
    else (forked.1, .exit 0)

/-- `main()` of github_fork_repos.py (lines 191-267), from the point the
organizations are resolved: select repositories by team membership
(`if args.team:` is false only for an empty filter list, in which case
the `else` branch reads the undefined variable `fork_teams` and raises
`NameError`), apply the limit, exit 0 on an empty selection; with
`--copy-teams` capture source team membership, build the usage index and
abort with exit code 1 on any name conflict with the destination's
teams; then fork everything and finally recreate the teams. Returns the
events issued and the run's outcome. -/
def run_main (w : World) (a : Args) : List Event × Outcome :=
  if a.team.isEmpty then ([], .raised .nameError)
  else
    let src_repos := selected_repos w a
    if src_repos.isEmpty then ([.select src_repos], .exit 0)
    else if a.copy_teams then
      match find_teams_by_repos w.src_org src_repos with
      | .error e => ([.select src_repos, .captureTeams], .raised e)
      | .ok src_rt =>
        let src_teams := find_used_teams src_rt
        let conflicting :=
          (src_teams.map Prod.fst).filter
            (fun n => (w.dst_teams.map Team.name).contains n)
        if conflicting.isEmpty then
          let tail := fork_then_teams w a
          (.select src_repos :: .captureTeams ::
            .checkConflicts conflicting :: tail.1, tail.2)
        else
          ([.select src_repos, .captureTeams, .checkConflicts conflicting],
            .exit 1)
    else
      let tail := fork_then_teams w a
      (.select src_repos :: tail.1, tail.2)

/-- A repository as consumed by github_list_repos.py: its name and the
names of the teams `repo.iter_teams()` yields. -/
structure LRepo where
  name : String
  teams : List String
deriving DecidableEq, Repr

/-- The loop of github_list_repos.py (lines 50-61): print the repository
name, or with `--teams` the name and the tab-joined team names; with a
truthy `--hide` value (`if opt.hide:` — false for `None` and for the
empty string), `teamnames.remove(opt.hide)` drops the first occurrence
and raises `ValueError` when the value is absent. Returns the lines
printed before the run ends and the uncaught exception, if any. -/
def list_repos_loop (showTeams : Bool) (hide : Option String) :
    List LRepo → List String × Option RunError
  | [] => ([], none)
  | r :: rest =>
    if !showTeams then
      let next' := list_repos_loop showTeams hide rest
      (r.name :: next'.1, next'.2)
    else
      match hide with
      | some h =>
        if h ≠ "" then
          if r.teams.contains h then
            let next' := list_repos_loop showTeams hide rest
            ((r.name ++ " : " ++ String.intercalate "\t" (r.teams.erase h))
              :: next'.1, next'.2)
          else
            ([], some (.valueError "list.remove(x): x not in list"))
        else
          let next' := list_repos_loop showTeams hide rest
          ((r.name ++ " : " ++ String.intercalate "\t" r.teams)
            :: next'.1, next'.2)
      | none =>
        let next' := list_repos_loop showTeams hide rest
        ((r.name ++ " : " ++ String.intercalate "\t" r.teams)
          :: next'.1, next'.2)

/-- `github_list_repos.py` from the point the organization's repositories
are enumerated. -/
def list_repos_main (repos : List LRepo) (showTeams : Bool)
    (hide : Option String) : List String × Option RunError :=
  list_repos_loop showTeams hide repos

/-- Is this event a `create_fork` request? -/
def isForkEvent : Event → Bool
  | .forkRequest _ => true
  | _ => false

/-- Is this event a `create_team` request? -/
def isTeamEvent : Event → Bool
  | .createTeamRequest _ _ => true
  | _ => false

/-- Is this event part of the SELECT / CAPTURE_TEAMS / CHECK_CONFLICTS
stages (no remote mutation)? -/
def isPreEvent : Event → Bool
  | .select _ => true
  | .captureTeams => true
  | .checkConflicts _ => true
  | _ => false

/-! Concrete instances used by witnesses and counterexamples: the spec's
end-to-end scenario. Source org `A` has repos `A/x` (teams `{t1}`),
`A/y` (teams `{t1, t2}`), `A/z` (teams `{t2}`); destination org `B`. -/

/-- Repository `A/x` of the end-to-end scenario. -/
def repoX : Repo := ⟨"x", "A/x"⟩

/-- Repository `A/y` of the end-to-end scenario. -/
def repoY : Repo := ⟨"y", "A/y"⟩

/-- Repository `A/z` of the end-to-end scenario. -/
def repoZ : Repo := ⟨"z", "A/z"⟩

/-- Team `t1` of the end-to-end scenario, with members `A/x` and `A/y`. -/
def teamT1 : Team := ⟨"t1", [repoX, repoY]⟩

/-- Team `t2` of the end-to-end scenario, with members `A/y` and `A/z`. -/
def teamT2 : Team := ⟨"t2", [repoY, repoZ]⟩

/-- The source organization `A` of the end-to-end scenario. -/
def orgA : Org := ⟨"A", [teamT1, teamT2]⟩

/-- A cooperating server for destination org `B` with no existing teams:
forks succeed with a creation time after the request, team creation
succeeds with an empty member list (which is what a `create_team` call
without `repo_names` produces). -/
def worldB : World :=
  ⟨orgA, "B", [],
    fun r => .ok ⟨"B/" ++ r.name, 1⟩,
    fun n _ => .ok ⟨n, []⟩,
    fun _ => 0⟩

/-- The same scenario but destination org `B` already has a team named
`t1`. -/
def worldBConflict : World :=
  ⟨orgA, "B", [⟨"t1", []⟩],
    fun r => .ok ⟨"B/" ++ r.name, 1⟩,
    fun n _ => .ok ⟨n, []⟩,
    fun _ => 0⟩

/-- A server whose forks all come back with a creation time before the
request: every fork already existed (a re-run of the fork step). -/
def worldBRerun : World :=
  ⟨orgA, "B", [],
    fun r => .ok ⟨"B/" ++ r.name, -1⟩,
    fun n _ => .ok ⟨n, []⟩,
    fun _ => 0⟩

/-- `github-fork-repos --src-org A --dst-org B --team t1 --copy-teams`. -/
def argsT1 : Args := ⟨["t1"], none, true⟩

/-! ### Helper lemmas -/

theorem mem_dedupFirstAux {α : Type} [DecidableEq α] (x : α) :
    ∀ (l seen : List α),
      x ∈ dedupFirstAux seen l ↔ x ∈ l ∧ x ∉ seen := by
  intro l
  induction l with
  | nil => intro seen; simp [dedupFirstAux]
  | cons a l ih =>
    intro seen
    rw [dedupFirstAux]
    by_cases hs : seen.contains a
    · have ha : a ∈ seen := by simpa using hs
      rw [if_pos hs, ih]
      simp only [List.mem_cons]
      constructor
      · rintro ⟨h1, h2⟩
        exact ⟨Or.inr h1, h2⟩
      · rintro ⟨rfl | h1, h2⟩
        · exact absurd ha h2
        · exact ⟨h1, h2⟩
    · have ha : a ∉ seen := by simpa using hs
      rw [if_neg hs]
      simp only [List.mem_cons, ih, not_or]
      constructor
      · rintro (rfl | ⟨h1, h2, h3⟩)
        · exact ⟨Or.inl rfl, ha⟩
        · exact ⟨Or.inr h1, h3⟩
      · rintro ⟨rfl | h1, h2⟩
        · exact Or.inl rfl
        · by_cases hxa : x = a
          · exact Or.inl hxa
          · exact Or.inr ⟨h1, hxa, h2⟩

theorem mem_dedupFirst {α : Type} [DecidableEq α] (a : α) :
    ∀ l : List α, a ∈ dedupFirst l ↔ a ∈ l := by
  intro l
  rw [dedupFirst, mem_dedupFirstAux]
  simp

theorem nodup_dedupFirstAux {α : Type} [DecidableEq α] :
    ∀ (l seen : List α), (dedupFirstAux seen l).Nodup := by
  intro l
  induction l with
  | nil => intro seen; simp [dedupFirstAux]
  | cons a l ih =>
    intro seen
    rw [dedupFirstAux]
    by_cases hs : seen.contains a
    · rw [if_pos hs]; exact ih seen
    · rw [if_neg hs]
      refine List.nodup_cons.mpr ⟨fun hmem => ?_, ih (a :: seen)⟩
      exact (mem_dedupFirstAux a l (a :: seen)).mp hmem |>.2 (by simp)

theorem nodup_dedupFirst {α : Type} [DecidableEq α] (l : List α) :
    (dedupFirst l).Nodup :=
  nodup_dedupFirstAux l []

theorem find_first_match {α : Type} (p : α → Bool) :
    ∀ (l₁ : List α) (t : α) (l₂ : List α),
      (∀ u ∈ l₁, p u = false) → p t = true →
      (l₁ ++ t :: l₂).find? p = some t := by
  intro l₁
  induction l₁ with
  | nil =>
    intro t l₂ _ ht
    simpa using List.find?_cons_of_pos l₂ ht
  | cons u l ih =>
    intro t l₂ hu ht
    have hu0 : p u = false := hu u (by simp)
    have : ((u :: l) ++ t :: l₂).find? p = (l ++ t :: l₂).find? p := by
      simpa using List.find?_cons_of_neg (l ++ t :: l₂) (by simp [hu0])
    rw [this]
    exact ih t l₂ (fun v hv => hu v (by simp [hv])) ht

theorem create_forks_loop_events (api : Repo → ForkResult)
    (time : Nat → Int) :
    ∀ (rs : List Repo) (i : Nat) (ev : Event),
      ev ∈ (create_forks_loop api time rs i).1 → isForkEvent ev = true := by
  intro rs
  induction rs with
  | nil => intro i ev he; simp [create_forks_loop] at he
  | cons r rest ih =>
    intro i ev he
    rw [create_forks_loop] at he
    cases hapi : api r with
    | err er =>
      rw [hapi] at he
      simp at he
      rw [he]; rfl
    | ok f =>
      rw [hapi] at he
      simp at he
      rcases he with he | he
      · rw [he]; rfl
      · exact ih (i + 1) ev he

theorem create_teams_loop_events (login : String) (dstL : List Team)
    (api : String → Option (List String) → CreateTeamResult)
    (wr ig : Bool) :
    ∀ (items : List (String × List Repo)) (acc : List (String × Team))
      (ev : Event),
      ev ∈ (create_teams_loop login dstL api wr ig items acc).1 →
      isTeamEvent ev = true := by
  intro items
  induction items with
  | nil => intro acc ev he; simp [create_teams_loop] at he
  | cons item rest ih =>
    obtain ⟨name, repos⟩ := item
    intro acc ev he
    simp only [create_teams_loop] at he
    split at he
    · simp at he
      rcases he with he | he
      · rw [he]; rfl
      · exact ih _ ev he
    · split at he
      · split at he
        · simp at he
          rcases he with he | he
          · rw [he]; rfl
          · exact ih _ ev he
        · simp at he
          rw [he]; rfl
      · simp at he
        rw [he]; rfl

theorem source_index_nil (w : World) (a : Args)
    (h : selected_repos w a = []) : source_index w a = [] := by
  simp [source_index, capture, h, find_used_teams]

theorem selected_nil_of_team_nil (w : World) (a : Args) (h : a.team = []) :
    selected_repos w a = [] := by
  unfold selected_repos unlimited_selection kept_teams get_repos_by_team
  rw [h]
  have hf : w.src_org.teams.filter
      (fun t => ([] : List String).contains t.name) = [] := by simp
  rw [hf]
  cases a.limit <;> simp [islice, dedupFirst, dedupFirstAux]

theorem find_teams_by_repos_ok (org : Org) (rs : List Repo) (h : rs ≠ []) :
    find_teams_by_repos org rs = .ok (capture org rs) := by
  simp [find_teams_by_repos, h]

theorem create_forks_loop_all_exist (api : Repo → ForkResult)
    (time : Nat → Int) :
    ∀ (rs : List Repo) (start : Nat),
      (∀ i (hi : i < rs.length),
        ∃ f, api (rs.get ⟨i, hi⟩) = .ok f
          ∧ f.created_at < time (start + i)) →
      (create_forks_loop api time rs start).1 = rs.map Event.forkRequest
      ∧ ∃ ws, (create_forks_loop api time rs start).2 = .ok ws
          ∧ ws.length = rs.length := by
  intro rs
  induction rs with
  | nil => exact fun start _ => ⟨rfl, [], rfl, rfl⟩
  | cons r rest ih =>
    intro start h
    obtain ⟨f, hf0, hlt⟩ := h 0 (by simp)
    have hf : api r = .ok f := hf0
    rw [Nat.add_zero] at hlt
    obtain ⟨he, ws, hws, hlen⟩ := ih (start + 1) (fun i hi => by
      obtain ⟨g, hg, hglt⟩ := h (i + 1) (by simpa using Nat.succ_lt_succ hi)
      exact ⟨g, hg, by rwa [show start + (i + 1) = start + 1 + i by omega]
        at hglt⟩)
    rw [create_forks_loop, hf]
    refine ⟨by simp [he], ?_⟩
    refine ⟨("fork of " ++ f.full_name ++ " already exists") :: ws, ?_, ?_⟩
    · simp [hws, hlt]
    · simp [hlen]

/-- C2: for every team-name filter and organization state, the selected
repository set (before the limit) is exactly the repositories belonging
to at least one team whose name is in the filter, with no duplicate even
when a repository belongs to several filtered teams. -/
theorem selection_exact (w : World) (a : Args) (r : Repo) :
    (r ∈ unlimited_selection w a ↔
      ∃ t, t ∈ w.src_org.teams ∧ t.name ∈ a.team ∧ r ∈ t.repos)
    ∧ (unlimited_selection w a).Nodup := by
  constructor
  · rw [unlimited_selection, get_repos_by_team, mem_dedupFirst]
    simp only [kept_teams, List.mem_flatten, List.mem_map, List.mem_filter]
    constructor
    · rintro ⟨l, ⟨t, ⟨htm, htn⟩, rfl⟩, hr⟩
      exact ⟨t, htm, by simpa using htn, hr⟩
    · rintro ⟨t, htm, htn, hr⟩
      exact ⟨t.repos, ⟨t, ⟨htm, by simpa using htn⟩, rfl⟩, hr⟩
  · exact nodup_dedupFirst _

/-- C4: when every fork request of the run returns an already-existing
fork (creation time earlier than the time read just before the request),
`create_forks` issues a fork request for every repository in order,
finishes without error, and emits exactly one warning per repository —
so re-running the fork step over already-forked repositories behaves as
success with one warning per existing fork. -/
theorem rerun_forks_warns (api : Repo → ForkResult) (time : Nat → Int)
    (rs : List Repo)
    (h : ∀ i (hi : i < rs.length),
      ∃ f, api (rs.get ⟨i, hi⟩) = .ok f ∧ f.created_at < time i) :
    (create_forks api time rs).1 = rs.map Event.forkRequest
    ∧ ∃ ws, (create_forks api time rs).2 = .ok ws
        ∧ ws.length = rs.length := by
  exact create_forks_loop_all_exist api time rs 0
    (fun i hi => by simpa using h i hi)

theorem rerun_forks_warns_witness :
    (∀ i (hi : i < ([repoX, repoY] : List Repo).length),
      ∃ f, worldBRerun.fork_api ([repoX, repoY].get ⟨i, hi⟩) = .ok f
        ∧ f.created_at < worldBRerun.time i)
    ∧ ((create_forks worldBRerun.fork_api worldBRerun.time
          [repoX, repoY]).1 = [repoX, repoY].map Event.forkRequest
      ∧ ∃ ws, (create_forks worldBRerun.fork_api worldBRerun.time
          [repoX, repoY]).2 = .ok ws ∧ ws.length = 2) :=
  ⟨fun i hi => ⟨⟨"B/" ++ ([repoX, repoY].get ⟨i, hi⟩).name, -1⟩, rfl,
      (by decide : (-1 : Int) < 0)⟩,
    rerun_forks_warns worldBRerun.fork_api worldBRerun.time [repoX, repoY]
      (fun i hi => ⟨⟨"B/" ++ ([repoX, repoY].get ⟨i, hi⟩).name, -1⟩, rfl,
        (by decide : (-1 : Int) < 0)⟩)⟩

/-- C5: the processed repository list is the unlimited selection when no
`--limit` is given, and its first `min(N, |selection|)` elements, in
enumeration order, when `--limit N` is given (`List.take` keeps exactly
the first `min` elements in order). -/
theorem limit_truncates (w : World) (a : Args) :
    selected_repos w a =
      (match a.limit with
       | none => unlimited_selection w a
       | some n => (unlimited_selection w a).take n)
    ∧ (selected_repos w a).length =
      (match a.limit with
       | none => (unlimited_selection w a).length
       | some n => min n (unlimited_selection w a).length) := by
  cases hl : a.limit with
  | none => simp [selected_repos, islice, hl]
  | some n => simp [selected_repos, islice, hl, List.length_take]

/-- C8: `find_teams_by_repos` raises (`max()` over the empty sequence of
repository names) on an empty input list instead of returning an empty
index, and returns normally for every non-empty input list. -/
theorem find_teams_empty_raises (org : Org) (rs : List Repo) :
    find_teams_by_repos org [] =
      .error (.valueError "max() arg is an empty sequence")
    ∧ (rs ≠ [] → ∃ v, find_teams_by_repos org rs = .ok v) :=
  ⟨rfl, fun h => ⟨capture org rs, find_teams_by_repos_ok org rs h⟩⟩

theorem find_teams_empty_raises_witness :
    ([repoX] : List Repo) ≠ []
    ∧ ∃ v, find_teams_by_repos orgA [repoX] = .ok v :=
  ⟨by decide, (find_teams_empty_raises orgA [repoX]).2 (by decide)⟩

/-- C9: when `create_teams` recovers from a creation failure, the team
it reuses is the first destination team whose name is a substring of the
requested name (`t.name in name` on strings), the returned dictionary is
keyed by that found team's name, and when no destination team's name is
a substring of the requested name the `next(...)` lookup raises
`StopIteration`. -/
theorem create_teams_reuse_by_substring (login : String) (dstL : List Team)
    (api : String → Option (List String) → CreateTeamResult)
    (wr ig : Bool) (name : String) (repos : List Repo) (e : GithubError)
    (hapi : api name (team_create_arg login wr repos) = .err e)
    (hrec : recoverable ig e = true) :
    ((∀ u ∈ dstL, strIn u.name name = false) →
      create_teams login dstL api wr ig [(name, repos)] =
        .error .stopIteration)
    ∧ (∀ (l₁ : List Team) (t : Team) (l₂ : List Team),
        dstL = l₁ ++ t :: l₂ →
        (∀ u ∈ l₁, strIn u.name name = false) →
        strIn t.name name = true →
        create_teams login dstL api wr ig [(name, repos)] =
          .ok [(t.name, t)]) := by
  constructor
  · intro hnone
    have hfind : dstL.find? (fun t => strIn t.name name) = none :=
      List.find?_eq_none.mpr (fun x hx => by simp [hnone x hx])
    simp [create_teams, create_teams_loop, hapi, hrec, hfind]
  · intro l₁ t l₂ hsplit h₁ ht
    have hfind : dstL.find? (fun u => strIn u.name name) = some t := by
      rw [hsplit]
      exact find_first_match _ l₁ t l₂ h₁ ht
    simp [create_teams, create_teams_loop, hapi, hrec, hfind, dictInsert]

theorem create_teams_reuse_by_substring_witness :
    (fun _ _ => CreateTeamResult.err
        ⟨"Validation Failed", ["Name has already been taken"]⟩ :
      String → Option (List String) → CreateTeamResult) "team1"
        (team_create_arg "B" false []) =
      .err ⟨"Validation Failed", ["Name has already been taken"]⟩
    ∧ recoverable true ⟨"Validation Failed",
        ["Name has already been taken"]⟩ = true
    ∧ strIn "team" "team1" = true
    ∧ "team" ≠ "team1"
    ∧ create_teams "B" [⟨"zz", []⟩, ⟨"team", []⟩]
        (fun _ _ => .err ⟨"Validation Failed",
          ["Name has already been taken"]⟩)
        false true [("team1", [])] = .ok [("team", ⟨"team", []⟩)] :=
  ⟨rfl, by decide, by decide, by decide,
    (create_teams_reuse_by_substring "B" [⟨"zz", []⟩, ⟨"team", []⟩]
        (fun _ _ => .err ⟨"Validation Failed",
          ["Name has already been taken"]⟩)
        false true "team1" [] _ rfl (by decide)).2
      [⟨"zz", []⟩] ⟨"team", []⟩ [] rfl (by decide) (by decide)⟩

/-- C6 counterexample: a creation failure whose `errors` list is empty —
so the error does not indicate the team name is taken — is nonetheless
not re-raised even though the caller did not opt in
(`ignore_existing=False`): the `for oops in e.data['errors']` loop body
never runs, and the handler falls through to the existing-team lookup
and continues. -/
theorem create_teams_empty_errors_not_reraised :
    create_teams "B" [⟨"team", []⟩]
      (fun _ _ => .err ⟨"Validation Failed", []⟩) false false
      [("teamx", [])] = .ok [("team", ⟨"team", []⟩)]
    ∧ create_teams "B" [⟨"team", []⟩]
      (fun _ _ => .err ⟨"Validation Failed", []⟩) false false
      [("teamx", [])] ≠ .error (.github ⟨"Validation Failed", []⟩) :=
  ⟨rfl, fun h => Except.noConfusion h⟩

/-- C6 (amended): a failed `create_team` call leads to the existing-team
lookup (reuse) exactly when every sub-error message passes
`ignore_existing and 'Name has already been taken' in msg` — that is,
when the caller opted in and every sub-error indicates a taken name, or
vacuously when the error carries no sub-error messages at all; any
failure carrying at least one sub-error message that is not a taken-name
indication, or arriving without the opt-in, is re-raised and aborts the
run. -/
theorem create_teams_error_policy (login : String) (dstL : List Team)
    (api : String → Option (List String) → CreateTeamResult)
    (wr ig : Bool) (name : String) (repos : List Repo) (e : GithubError)
    (hapi : api name (team_create_arg login wr repos) = .err e) :
    ((∀ m ∈ e.errors, ig = true ∧ strIn nameTakenMarker m = true) →
      create_teams login dstL api wr ig [(name, repos)] =
        match dstL.find? (fun t => strIn t.name name) with
        | some t => .ok [(t.name, t)]
        | none => .error .stopIteration)
    ∧ ((∃ m, m ∈ e.errors
          ∧ (ig = false ∨ strIn nameTakenMarker m = false)) →
      create_teams login dstL api wr ig [(name, repos)] =
        .error (.github e)) := by
  constructor
  · intro hall
    have hrec : recoverable ig e = true := by
      rw [recoverable, List.all_eq_true]
      intro m hm
      obtain ⟨h1, h2⟩ := hall m hm
      simp [h1, h2]
    cases hfind : dstL.find? (fun t => strIn t.name name) with
    | some t =>
      simp [create_teams, create_teams_loop, hapi, hrec, hfind, dictInsert]
    | none => simp [create_teams, create_teams_loop, hapi, hrec, hfind]
  · rintro ⟨m, hm, hbad⟩
    have hrec : recoverable ig e = false := by
      rw [Bool.eq_false_iff]
      intro hall
      rw [recoverable, List.all_eq_true] at hall
      have hthis := hall m hm
      rcases hbad with h | h <;> simp [h] at hthis
    simp [create_teams, create_teams_loop, hapi, hrec]

theorem create_teams_error_policy_witness :
    (∀ m ∈ (⟨"Validation Failed",
        ["Name has already been taken"]⟩ : GithubError).errors,
      true = true ∧ strIn nameTakenMarker m = true)
    ∧ create_teams "B" [⟨"team", []⟩]
        (fun _ _ => .err ⟨"Validation Failed",
          ["Name has already been taken"]⟩)
        false true [("teamx", [])] = .ok [("team", ⟨"team", []⟩)] :=
  ⟨by decide, by
    have h := (create_teams_error_policy "B" [⟨"team", []⟩]
      (fun _ _ => .err ⟨"Validation Failed",
        ["Name has already been taken"]⟩)
      false true "teamx" [] ⟨"Validation Failed",
        ["Name has already been taken"]⟩ rfl).1 (by decide)
    simpa using h⟩

/-- C3 (code bug): on the spec's end-to-end scenario (filter `t1`
selecting `A/x` and `A/y`, destination `B` with no teams, cooperating
server), the run exits 0, forks `x` and `y`, and creates teams `t1` and
`t2` — but because `main` calls `create_teams(dst_org, src_teams)`
leaving `with_repos` at its `False` default, both create-team requests
carry no `repo_names` argument, so the created teams have no member
repositories instead of `t1 = {B/x, B/y}` and `t2 = {B/y}` as the
`--copy-teams` help text ("Recreate team membership on forked repos")
and the spec require. -/
theorem copy_teams_creates_empty_teams :
    run_main worldB argsT1 =
      ([.select [repoX, repoY], .captureTeams, .checkConflicts [],
        .forkRequest repoX, .forkRequest repoY,
        .createTeamRequest "t1" none, .createTeamRequest "t2" none],
       .exit 0)
    ∧ Event.createTeamRequest "t1" (some ["B/x", "B/y"]) ∉
        (run_main worldB argsT1).1
    ∧ Event.createTeamRequest "t2" (some ["B/y"]) ∉
        (run_main worldB argsT1).1 := by
  refine ⟨rfl, ?_, ?_⟩ <;> decide

/-- C10 counterexample: with `--teams --hide ""` (an empty-string hide
value) and a repository that does not belong to a team named `""`, the
run does not abort with `ValueError` as the claim requires — Python's
`if opt.hide:` is falsy for the empty string, so no removal is even
attempted. -/
theorem hide_empty_string_no_abort :
    list_repos_main [⟨"r", ["t"]⟩] true (some "") = (["r : t"], none)
    ∧ (list_repos_main [⟨"r", ["t"]⟩] true (some "")).2 ≠
        some (.valueError "list.remove(x): x not in list") :=
  ⟨rfl, fun h => Option.noConfusion h⟩

theorem list_repos_loop_all_have (h : String) (hne : h ≠ "") :
    ∀ repos : List LRepo, (∀ r ∈ repos, h ∈ r.teams) →
      list_repos_loop true (some h) repos =
        (repos.map (fun r => r.name ++ " : " ++
          String.intercalate "\t" (r.teams.erase h)), none) := by
  intro repos
  induction repos with
  | nil => intro _; rfl
  | cons r rest ih =>
    intro hall
    have hr : r.teams.contains h = true := by
      simpa using hall r (by simp)
    rw [list_repos_loop]
    simp only [Bool.not_true, Bool.false_eq_true, if_false, hne, hr,
      if_true, ite_not]
    rw [ih (fun x hx => hall x (by simp [hx]))]
    simp

theorem list_repos_loop_abort (h : String) (hne : h ≠ "") :
    ∀ (pre : List LRepo) (bad : LRepo) (rest : List LRepo),
      (∀ r ∈ pre, h ∈ r.teams) → h ∉ bad.teams →
      list_repos_loop true (some h) (pre ++ bad :: rest) =
        (pre.map (fun r => r.name ++ " : " ++
          String.intercalate "\t" (r.teams.erase h)),
         some (.valueError "list.remove(x): x not in list")) := by
  intro pre
  induction pre with
  | nil =>
    intro bad rest _ hbad
    have hb : bad.teams.contains h = false := by simpa using hbad
    rw [List.nil_append, list_repos_loop]
    simp [hne, hb, hbad]
  | cons r pre' ih =>
    intro bad rest hall hbad
    have hr : r.teams.contains h = true := by
      simpa using hall r (by simp)
    rw [List.cons_append, list_repos_loop]
    simp only [Bool.not_true, Bool.false_eq_true, if_false, hne, hr,
      if_true, ite_not]
    rw [ih bad rest (fun x hx => hall x (by simp [hx])) hbad]
    simp

/-- C10 (amended): for every run of the listing tool with `--teams` and
a non-empty `--hide H`: when every enumerated repository belongs to a
team named `H`, each printed team list is the repository's team list
with the first occurrence of `H` removed (so `H`'s count drops by
exactly one), and the run ends normally; when some repository lacks `H`,
the run aborts with an uncaught `ValueError` at the first such
repository, having printed only the lines before it. With `--hide ""`
(the empty string) Python's truthiness makes the hide branch a no-op, so
no removal and no abort occur. -/
theorem list_repos_hide (repos : List LRepo) (h : String) (hne : h ≠ "") :
    ((∀ r ∈ repos, h ∈ r.teams) →
      list_repos_main repos true (some h) =
        (repos.map (fun r => r.name ++ " : " ++
          String.intercalate "\t" (r.teams.erase h)), none))
    ∧ (∀ (pre : List LRepo) (bad : LRepo) (rest : List LRepo),
        repos = pre ++ bad :: rest →
        (∀ r ∈ pre, h ∈ r.teams) → h ∉ bad.teams →
        list_repos_main repos true (some h) =
          (pre.map (fun r => r.name ++ " : " ++
            String.intercalate "\t" (r.teams.erase h)),
           some (.valueError "list.remove(x): x not in list")))
    ∧ (∀ l : List String, (l.erase h).count h = l.count h - 1) := by
  refine ⟨fun hall => list_repos_loop_all_have h hne repos hall,
    fun pre bad rest hsplit h1 h2 => ?_,
    fun l => List.count_erase_self h l⟩
  rw [list_repos_main, hsplit]
  exact list_repos_loop_abort h hne pre bad rest h1 h2

/-- C1: with `--copy-teams`, whenever some team name of the source
team-usage index also occurs among the destination organization's
existing teams, the run exits with status 1, the conflict check reports
every conflicting team name, and no fork request and no team-creation
request has been issued. -/
theorem conflict_check_aborts (w : World) (a : Args)
    (hcopy : a.copy_teams = true)
    (hconf : ∃ n, n ∈ (source_index w a).map Prod.fst
      ∧ n ∈ w.dst_teams.map Team.name) :
    (run_main w a).2 = .exit 1
    ∧ (∀ r, Event.forkRequest r ∉ (run_main w a).1)
    ∧ (∀ n arg, Event.createTeamRequest n arg ∉ (run_main w a).1)
    ∧ Event.checkConflicts (conflict_list w a) ∈ (run_main w a).1
    ∧ (∀ n, n ∈ (source_index w a).map Prod.fst →
        n ∈ w.dst_teams.map Team.name → n ∈ conflict_list w a) := by
  obtain ⟨n, hn, hd⟩ := hconf
  have hidx : source_index w a ≠ [] := by
    intro h0
    rw [h0] at hn
    simp at hn
  have hsel : selected_repos w a ≠ [] := by
    intro h0
    exact hidx (source_index_nil w a h0)
  have hteam : a.team ≠ [] := by
    intro h0
    exact hsel (selected_nil_of_team_nil w a h0)
  have hteamE : a.team.isEmpty = false := by simp [hteam]
  have hselE : (selected_repos w a).isEmpty = false := by simp [hsel]
  have hok := find_teams_by_repos_ok w.src_org (selected_repos w a) hsel
  have hncl : n ∈ conflict_list w a := by
    rw [conflict_list, List.mem_filter]
    exact ⟨hn, by simpa using hd⟩
  have hclE : (conflict_list w a).isEmpty = false := by
    simp [List.ne_nil_of_mem hncl]
  have hclE' := hclE
  rw [conflict_list, source_index] at hclE'
  have hrm : run_main w a =
      ([.select (selected_repos w a), .captureTeams,
        .checkConflicts (conflict_list w a)], .exit 1) := by
    rw [run_main]
    simp only [hteamE, Bool.false_eq_true, if_false, hselE, hcopy, if_true,
      hok, hclE', conflict_list, source_index]
  refine ⟨by rw [hrm], ?_, ?_, ?_, ?_⟩
  · intro r
    rw [hrm]
    simp
  · intro m arg
    rw [hrm]
    simp
  · rw [hrm]
    simp
  · intro m h1 h2
    rw [conflict_list, List.mem_filter]
    exact ⟨h1, by simpa using h2⟩

/-- C7: every run's event trace decomposes as selection-stage events
(select, capture, conflict check), then fork requests, then
team-creation requests, in that order; a conflict check that reported a
non-empty conflict list is followed by no fork request and no
team-creation request, and team-creation requests occur only when the
fork stage completed without an unhandled error. -/
theorem stage_order (w : World) (a : Args) :
    ∃ pre fe te : List Event,
      (run_main w a).1 = pre ++ fe ++ te
      ∧ (∀ ev ∈ pre, isPreEvent ev = true)
      ∧ (∀ ev ∈ fe, isForkEvent ev = true)
      ∧ (∀ ev ∈ te, isTeamEvent ev = true)
      ∧ (∀ L, Event.checkConflicts L ∈ pre → L ≠ [] → fe = [] ∧ te = [])
      ∧ (te ≠ [] → ∃ ws,
          (create_forks w.fork_api w.time (selected_repos w a)).2 =
            .ok ws) := by
  by_cases h1 : a.team.isEmpty
  · refine ⟨[], [], [], ?_, by simp, by simp, by simp, by simp, by simp⟩
    simp [run_main, h1]
  rw [Bool.not_eq_true] at h1
  by_cases h2 : (selected_repos w a).isEmpty
  · refine ⟨[.select (selected_repos w a)], [], [], ?_, ?_, by simp,
      by simp, by simp, by simp⟩
    · simp [run_main, h1, h2]
    · intro ev hev
      simp at hev
      rw [hev]
      rfl
  rw [Bool.not_eq_true] at h2
  have hsel : selected_repos w a ≠ [] := by
    intro h0
    rw [h0] at h2
    simp at h2
  have hok := find_teams_by_repos_ok w.src_org (selected_repos w a) hsel
  by_cases h3 : a.copy_teams
  · by_cases h4 : (conflict_list w a).isEmpty
    · have h4' := h4
      rw [conflict_list, source_index] at h4'
      have hC : conflict_list w a = [] := by simpa using h4
      have hrm : run_main w a =
          (.select (selected_repos w a) :: .captureTeams ::
            .checkConflicts (conflict_list w a) :: (fork_then_teams w a).1,
           (fork_then_teams w a).2) := by
        rw [run_main]
        simp only [h1, Bool.false_eq_true, if_false, h2, h3, if_true, hok,
          h4', conflict_list, source_index]
      cases hf : (create_forks w.fork_api w.time (selected_repos w a)).2 with
      | error e =>
        have hft : (fork_then_teams w a).1 =
            (create_forks w.fork_api w.time (selected_repos w a)).1 := by
          rw [fork_then_teams]
          simp only [hf]
        refine ⟨[.select (selected_repos w a), .captureTeams,
            .checkConflicts (conflict_list w a)],
          (create_forks w.fork_api w.time (selected_repos w a)).1, [],
          ?_, ?_, ?_, by simp, ?_, by simp⟩
        · rw [hrm, hft]
          simp
        · intro ev hev
          simp at hev
          rcases hev with h | h | h <;> (rw [h]; rfl)
        · intro ev hev
          exact create_forks_loop_events w.fork_api w.time
            (selected_repos w a) 0 ev hev
        · intro L hL hLne
          exfalso
          simp at hL
          exact hLne (hL.trans hC)
      | ok ws =>
        have hft : (fork_then_teams w a).1 =
            (create_forks w.fork_api w.time (selected_repos w a)).1 ++
            (create_teams_loop w.dst_login w.dst_teams w.team_api
              false false (source_index w a) []).1 := by
          rw [fork_then_teams]
          simp only [hf, h3, if_true]
          cases hc : (create_teams_loop w.dst_login w.dst_teams w.team_api
              false false (source_index w a) []).2 <;> simp [hc]
        refine ⟨[.select (selected_repos w a), .captureTeams,
            .checkConflicts (conflict_list w a)],
          (create_forks w.fork_api w.time (selected_repos w a)).1,
          (create_teams_loop w.dst_login w.dst_teams w.team_api
            false false (source_index w a) []).1,
          ?_, ?_, ?_, ?_, ?_, fun _ => ⟨ws, rfl⟩⟩
        · rw [hrm, hft]
          simp
        · intro ev hev
          simp at hev
          rcases hev with h | h | h <;> (rw [h]; rfl)
        · intro ev hev
          exact create_forks_loop_events w.fork_api w.time
            (selected_repos w a) 0 ev hev
        · intro ev hev
          exact create_teams_loop_events w.dst_login w.dst_teams w.team_api
            false false (source_index w a) [] ev hev
        · intro L hL hLne
          exfalso
          simp at hL
          exact hLne (hL.trans hC)
    · have h4' : (conflict_list w a).isEmpty = false := by
        rwa [Bool.not_eq_true] at h4
      have h4'' := h4'
      rw [conflict_list, source_index] at h4''
      have hrm : run_main w a =
          ([.select (selected_repos w a), .captureTeams,
            .checkConflicts (conflict_list w a)], .exit 1) := by
        rw [run_main]
        simp only [h1, Bool.false_eq_true, if_false, h2, h3, if_true, hok,
          h4'', conflict_list, source_index]
      refine ⟨[.select (selected_repos w a), .captureTeams,
          .checkConflicts (conflict_list w a)], [], [],
        ?_, ?_, by simp, by simp, by simp, by simp⟩
      · rw [hrm]
        simp
      · intro ev hev
        simp at hev
        rcases hev with h | h | h <;> (rw [h]; rfl)
  · have h3' : a.copy_teams = false := by rwa [Bool.not_eq_true] at h3
    have hrm : run_main w a =
        (.select (selected_repos w a) :: (fork_then_teams w a).1,
         (fork_then_teams w a).2) := by
      rw [run_main]
      simp only [h1, Bool.false_eq_true, if_false, h2, h3', if_true]
    have hft : (fork_then_teams w a).1 =
        (create_forks w.fork_api w.time (selected_repos w a)).1 := by
      rw [fork_then_teams]
      cases hf : (create_forks w.fork_api w.time (selected_repos w a)).2 <;>
        simp [hf, h3']
    refine ⟨[.select (selected_repos w a)],
      (create_forks w.fork_api w.time (selected_repos w a)).1, [],
      ?_, ?_, ?_, by simp, by simp, by simp⟩
    · rw [hrm, hft]
      simp
    · intro ev hev
      simp at hev
      rw [hev]
      rfl
    · intro ev hev
      exact create_forks_loop_events w.fork_api w.time
        (selected_repos w a) 0 ev hev

theorem conflict_check_aborts_witness :
    argsT1.copy_teams = true
    ∧ ("t1" ∈ (source_index worldBConflict argsT1).map Prod.fst
        ∧ "t1" ∈ worldBConflict.dst_teams.map Team.name)
    ∧ (run_main worldBConflict argsT1).2 = .exit 1
    ∧ Event.checkConflicts (conflict_list worldBConflict argsT1) ∈
        (run_main worldBConflict argsT1).1 :=
  ⟨rfl, ⟨by decide, by decide⟩,
    (conflict_check_aborts worldBConflict argsT1 rfl
      ⟨"t1", by decide, by decide⟩).1,
    (conflict_check_aborts worldBConflict argsT1 rfl
      ⟨"t1", by decide, by decide⟩).2.2.2.1⟩

theorem list_repos_hide_witness :
    ("h" : String) ≠ ""
    ∧ ([⟨"r", ["a", "h"]⟩, ⟨"s", ["a"]⟩] : List LRepo) =
        [⟨"r", ["a", "h"]⟩] ++ ⟨"s", ["a"]⟩ :: []
    ∧ (∀ r ∈ ([⟨"r", ["a", "h"]⟩] : List LRepo), "h" ∈ r.teams)
    ∧ "h" ∉ (⟨"s", ["a"]⟩ : LRepo).teams
    ∧ list_repos_main [⟨"r", ["a", "h"]⟩, ⟨"s", ["a"]⟩] true (some "h") =
        (["r : a"],
         some (.valueError "list.remove(x): x not in list")) := by
  refine ⟨by decide, rfl, by decide, by decide, ?_⟩
  have hmain := (list_repos_hide [⟨"r", ["a", "h"]⟩, ⟨"s", ["a"]⟩] "h"
    (by decide)).2.1 [⟨"r", ["a", "h"]⟩] ⟨"s", ["a"]⟩ [] rfl
    (by decide) (by decide)
  simpa using hmain

end Codekit
